import Mathlib

/-!
Verification development for the ASCII-Video converter (`ascii.py`).

The Python source is shallowly embedded below.  Pixels are RGB byte
triples, frames are row-major lists of pixel rows, glyph bitmaps are
row-major matrices.  Normalized glyph intensities (`bitmap / 255`,
float32 in the source) are modelled as rationals: every value that
actually occurs is of the form `p / 255` with `p ≤ 255`, which float32
represents with enough precision that all order comparisons used here
agree with the rational ones.  The external font-rendering collaborator
(PIL `ImageFont` / `ImageDraw`) is a parameter (`Rasterizer`), and the
external codec collaborator is modelled by plain lists of frames.
-/

/-- An RGB pixel: byte triple `(r, g, b)`. -/
abbrev Pixel : Type := Nat × Nat × Nat

/-- A frame: row-major matrix of RGB pixels (`height × width × 3`). -/
abbrev Frame : Type := List (List Pixel)

/-- Width of a frame, read off its first row (frames are rectangular). -/
def frameWidth (frame : Frame) : Nat :=
  ((frame.get? 0).getD []).length

/-- Safe pixel access `frame[r, c]`; in-code accesses are in bounds. -/
def pxAt (frame : Frame) (r c : Nat) : Pixel :=
  (((frame.get? r).getD []).get? c).getD (0, 0, 0)

/-- Luminance of one pixel as the source computes it:
`np.sum(frame * np.array([0.299, 0.587, 0.114]), axis=2, dtype=np.uint32)`
casts each float product to `uint32` (C truncation) while accumulating, so
the per-channel terms are the floors of `0.299*r`, `0.587*g`, `0.114*b`.
For `0 ≤ ch ≤ 255` the double products stay well over `1/1000` away from
integers except at exact integers, so the floors equal the exact rational
floors `299*ch / 1000` etc. used here. -/
def lumOf (p : Pixel) : Nat :=
  299 * p.1 / 1000 + 587 * p.2.1 / 1000 + 114 * p.2.2 / 1000

/-- Luminance-to-atlas index: `grayscaled * len(chars) >> 8`, computed on a
`uint32` array, hence the `% 2^32` before the shift. -/
def asciiIndex (numChars lum : Nat) : Nat :=
  lum * numChars % 4294967296 / 256

/-- Result of rendering one character with the external font collaborator:
`w, h = font.getsize(char)` and the grayscale bitmap (one channel of the
`w × h` image drawn by `ImageDraw.text`, shape `h × w`, values `0..255`). -/
structure GlyphRender where
  w : Nat
  h : Nat
  bitmap : List (List Nat)

/-- The external font rasterization collaborator: font size and boldness
determine, for each character, its metrics and grayscale bitmap. -/
abbrev Rasterizer : Type := Nat → Nat → Char → GlyphRender

/-- Polarity correction: `if background == 255: bitmap = 255 - bitmap`. -/
def polarize (background : Nat) (bm : List (List Nat)) : List (List Nat) :=
  if background = 255 then bm.map (fun row => row.map (fun p => 255 - p)) else bm

/-- Normalization of one grayscale pixel: `p / 255` as a rational. -/
def normPx (p : Nat) : ℚ :=
  (p : ℚ) / 255

/-- One rendered, polarity-corrected, normalized glyph bitmap:
`(bitmap / 255).astype(np.float32)` after the optional inversion. -/
def renderGlyph (fontsize boldness background : Nat) (rast : Rasterizer) (c : Char) :
    List (List ℚ) :=
  (polarize background (rast fontsize boldness c).bitmap).map
    (fun row => row.map normPx)

/-- Minimum of a nonempty list of naturals, as Python's `min` over the
collected set of values (`min(heights)` / `min(widths)`); the set-vs-list
distinction does not change the minimum.  Returns `0` on `[]`, a case the
source never evaluates (the crop lambda is only applied to rendered
glyphs). -/
def listMin : List Nat → Nat
  | [] => 0
  | x :: xs => xs.foldl min x

/-- Minimum glyph height observed across the character set. -/
def glyphMinH (fontsize boldness : Nat) (chars : List Char) (rast : Rasterizer) : Nat :=
  listMin (chars.map (fun c => (rast fontsize boldness c).h))

/-- Minimum glyph width observed across the character set. -/
def glyphMinW (fontsize boldness : Nat) (chars : List Char) (rast : Rasterizer) : Nat :=
  listMin (chars.map (fun c => (rast fontsize boldness c).w))

/-- Crop a bitmap to `[0:minHeight, 0:minWidth]`. -/
def cropTo (minH minW : Nat) (bm : List (List ℚ)) : List (List ℚ) :=
  (bm.take minH).map (fun row => row.take minW)

/-- Embedding of `get_font_maps` (ascii.py lines 44-88): render every
character of `chars` in order, polarity-correct and normalize each bitmap,
then crop all bitmaps to the minimum observed height and width.  The
source performs no reordering of the list. -/
def get_font_maps (fontsize boldness background : Nat) (chars : List Char)
    (rast : Rasterizer) : List (List (List ℚ)) :=
  let fonts := chars.map (renderGlyph fontsize boldness background rast)
  fonts.map (cropTo (glyphMinH fontsize boldness chars rast)
                    (glyphMinW fontsize boldness chars rast))

/-- Summed intensity ("density") of a normalized glyph bitmap. -/
def sumIntensity (bm : List (List ℚ)) : ℚ :=
  (bm.map (fun row => row.sum)).sum

/-- A glyph atlas sorted in descending order of summed bitmap intensity. -/
def sortedDescByIntensity (atlas : List (List (List ℚ))) : Prop :=
  atlas.Pairwise (fun a b => sumIntensity b ≤ sumIntensity a)

/-- The master character ordering string of `main` (ascii.py line 394),
before the `[::-1]` reversal. -/
def masterChars : List Char :=
  " \u0060.,|\u0027\\/~!_-;:)(\"><?*+7j1ilJyc&vt0$VruoI=wzCnY32LTxs4Zkm5hg6qfU9paOS#eX8D%bdRPGFK@AMQNWHEB".toList

/-- Character set as `main` builds it: the reversed master string,
optionally filtered to the characters present in the `-chars` argument
(an empty `-chars` string is falsy in Python, selecting the default). -/
def mainChars (argChars : Option (List Char)) : List Char :=
  match argChars with
  | none => masterChars.reverse
  | some cs =>
    if cs = [] then masterChars.reverse
    else masterChars.reverse.filter (fun c => c ∈ cs)

/-- Concatenation of a list of lists (`np.ravel` of a row-major matrix,
and the row-by-row appending of draw operations). -/
def concatAll : List (List α) → List α
  | [] => []
  | l :: ls => l ++ concatAll ls

/-- Elementwise repetition: `np.repeat(xs, k)` along one axis. -/
def repeatElems (k : Nat) (xs : List α) : List α :=
  concatAll (xs.map (fun x => List.replicate k x))

/-- Fuel-driven helper for `strided`; the fuel starts at the list length,
which always suffices because every step consumes at least one element. -/
def stridedAux (s : Nat) : Nat → List α → List α
  | _, [] => []
  | 0, _ :: _ => []
  | fuel + 1, x :: xs => x :: stridedAux s fuel (xs.drop (s - 1))

/-- Numpy slicing `a[::s]` for a stride `s ≥ 1`: every `s`-th element,
starting at index `0`. -/
def strided (s : Nat) (xs : List α) : List α :=
  stridedAux s xs.length xs

/-- Cell origins `range(0, limit, step)` for `step ≥ 1`. -/
def cellStarts (limit step : Nat) : List Nat :=
  (List.range ((limit + step - 1) / step)).map (fun i => i * step)

/-- One `draw.text` call issued by the exact policy `draw`: the cell
origin, the atlas index of the character drawn there (`ascii_map` holds
`chars[index]`; the index is recorded), and the fill color. -/
structure TextCall where
  row : Nat
  col : Nat
  charIdx : Nat
  fill : Pixel

/-- Embedding of the exact policy `draw` (ascii.py lines 91-159) as the
sequence of `draw.text` calls it issues onto the fresh canvas: for each
glyph-cell origin in row-major order, the character index sampled from the
cell-origin pixel and the fill color (the source pixel, or the fixed
monochrome color).  Cell metrics `fh, fw` come from `font.getsize` of the
reference character, an external collaborator, and are passed in.  When
clipping, the canvas is shrunk to `(dim // cell) * cell - cell`; natural
subtraction truncates at `0` here, while the source would compute a
negative size (and PIL would raise) for frames smaller than one cell. -/
def draw_calls (frame : Frame) (numChars fh fw : Nat) (clip : Bool)
    (monochrome : Option Pixel) : List TextCall :=
  let h0 := frame.length
  let w0 := frameWidth frame
  let h := if clip then h0 / fh * fh - fh else h0
  let w := if clip then w0 / fw * fw - fw else w0
  concatAll ((cellStarts h fh).map (fun row =>
    (cellStarts w fw).map (fun col =>
      { row := row, col := col,
        charIdx := asciiIndex numChars (lumOf (pxAt frame row col)),
        fill := monochrome.getD (pxAt frame row col) })))

/-- Pixel inversion `255 - p`, channelwise. -/
def invPx (p : Pixel) : Pixel :=
  (255 - p.1, 255 - p.2.1, 255 - p.2.2)

/-- Color layer of the vectorized policy: either a constant monochrome
color broadcast to every output pixel, or the nearest-neighbor-expanded
(possibly inverted) sampled frame. -/
inductive ColorsLayer where
  | monoColor : Pixel → ColorsLayer
  | layer : List (List Pixel) → ColorsLayer

/-- Embedding of the index and color computation of the vectorized policy
`draw_efficient` (ascii.py lines 199-230): cell metrics from
`font_maps[0].shape`, the frame sampled at steps of the cell size, the
color layer (monochrome constant, inverted when the background is white,
or the repeated sampled frame), and the flat row-major list of atlas
indices `grayscaled.ravel() * len(chars) >> 8`. -/
def draw_efficient_model (frame : Frame) (chars : List Char) (background : Nat)
    (monochrome : Option Pixel) (font_maps : List (List (List ℚ))) :
    List Nat × ColorsLayer :=
  let fm0 := (font_maps.get? 0).getD []
  let fh := fm0.length
  let fw := ((fm0.get? 0).getD []).length
  let sampled := (strided fh frame).map (strided fw)
  let bgWhite : Bool := background == 255
  let colors : ColorsLayer :=
    match monochrome with
    | some m => ColorsLayer.monoColor (if bgWhite then invPx m else m)
    | none =>
      if bgWhite then
        ColorsLayer.layer (repeatElems fh (sampled.map (fun row =>
          repeatElems fw (row.map invPx))))
      else
        ColorsLayer.layer (repeatElems fh (sampled.map (fun row =>
          repeatElems fw row)))
  let grayscaled := concatAll (sampled.map (fun row => row.map lumOf))
  (grayscaled.map (fun g => asciiIndex chars.length g), colors)

/-- Output height and width of the vectorized policy (ascii.py lines
229-242): the tiled raster has shape `(h*fh, w*fw)` for the sampled grid
`h × w`; with clipping the slice `image[:oh, :ow]` truncates back to the
original frame dimensions. -/
def draw_efficient_dims (clip : Bool) (frame : Frame) (fh fw : Nat) : Nat × Nat :=
  let oh := frame.length
  let ow := frameWidth frame
  let th := (strided fh frame).length * fh
  let tw := (strided fw ((frame.get? 0).getD [])).length * fw
  if clip then (min oh th, min ow tw) else (th, tw)

/-- Clipped canvas dimension of the exact policy (ascii.py lines 140-141):
`(dim // cell) * cell - cell`, over the integers.  Both operands are
nonnegative, so Python floor division agrees with `Int` division here. -/
def draw_clip_dim (dim cell : Int) : Int :=
  dim / cell * cell - cell

/-- The two drawing policies selected by the `-d` command line toggle. -/
inductive DrawPolicy where
  | exact : DrawPolicy
  | efficient : DrawPolicy

/-- The parameter tuple handed to a drawing function, as built for one
frame of a parallel batch (ascii.py line 316): note `font_maps := none`,
matching the `None` placed in every batch tuple. -/
structure BatchParams where
  frame : Frame
  chars : List Char
  fontsize : Nat
  boldness : Nat
  background : Nat
  clip : Bool
  monochrome : Option Pixel
  font_maps : Option (List (List (List ℚ)))

/-- Run one drawing policy on one parameter tuple, observing the list of
atlas indices it selects.  `kSize` is `font.getsize` of the reference
character (external), used by the exact policy for its cell metrics; the
exact policy ignores the `font_maps` slot (`draw` unpacks it into `_`).
`draw_efficient` begins with `font_maps[0].shape`, which raises a
`TypeError` when the slot holds `None`; that failure is the error case. -/
def runPolicy (p : DrawPolicy) (kSize : Nat × Nat) (prm : BatchParams) :
    Except String (List Nat) :=
  match p with
  | DrawPolicy.exact =>
    Except.ok ((draw_calls prm.frame prm.chars.length kSize.2 kSize.1
      prm.clip prm.monochrome).map (fun t => t.charIdx))
  | DrawPolicy.efficient =>
    match prm.font_maps with
    | none => Except.error "TypeError: NoneType object is not subscriptable"
    | some fm =>
      Except.ok (draw_efficient_model prm.frame prm.chars prm.background
        prm.monochrome fm).1

/-- Fuel-driven helper for `parallelRun`; fuel starts at the list length,
which suffices because every batch consumes at least one frame. -/
def parallelRunAux (W : Nat) (f : α → β) : Nat → List α → List β
  | _, [] => []
  | 0, _ :: _ => []
  | fuel + 1, x :: xs =>
    ((x :: xs).take W).map f ++ parallelRunAux W f fuel (xs.drop (W - 1))

/-- Embedding of the parallel batching loop of `ascii_video` (ascii.py
lines 307-325) for worker count `W ≥ 1`: repeatedly pull up to `W` frames
from the stream, apply the drawing function to the batch with an
order-preserving map (the contract of `multiprocessing.Pool.map`), and
append the results to the writer in that order. -/
def parallelRun (W : Nat) (f : α → β) (frames : List α) : List β :=
  parallelRunAux W f frames.length frames

/-- Fuel-driven helper for `poolSizes`. -/
def poolSizesAux (W : Nat) : Nat → List α → List Nat
  | _, [] => []
  | 0, _ :: _ => []
  | fuel + 1, x :: xs =>
    ((x :: xs).take W).length :: poolSizesAux W fuel (xs.drop (W - 1))

/-- Pool sizes used by the parallel loop: one `Pool(processes=len(batch))`
per batch (ascii.py line 320). -/
def poolSizes (W : Nat) (frames : List α) : List Nat :=
  poolSizesAux W frames.length frames

/-- Embedding of the parallel branch of `ascii_video` (`cores > 1`): the
configured drawing function `draw_func` is dispatched over batches whose
parameter tuples carry `font_maps = None` (ascii.py lines 303-325). -/
def ascii_video_parallel (draw_func : DrawPolicy) (kSize : Nat × Nat)
    (cores : Nat) (chars : List Char) (fontsize boldness background : Nat)
    (clip : Bool) (monochrome : Option Pixel) (frames : List Frame) :
    List (Except String (List Nat)) :=
  parallelRun cores
    (fun frame => runPolicy draw_func kSize
      { frame := frame, chars := chars, fontsize := fontsize,
        boldness := boldness, background := background, clip := clip,
        monochrome := monochrome, font_maps := none })
    frames

/-- The spec's configuration-error taxonomy (spec section 7); the embedded
`main` never raises any of these. -/
inductive ConfigError where
  | invalidBackground : Nat → ConfigError
  | emptyCharSet : ConfigError

/-- The parsed command-line arguments reaching `main`'s body. -/
structure MainArgs where
  chars : Option (List Char)
  f : Nat
  b : Nat
  bg : Nat
  m : Option Pixel
  c : Bool
  cores : Nat

/-- State assembled by `main` before any frame is processed. -/
structure PreludeState where
  chars : List Char
  monochrome : Option Pixel
  font_maps : List (List (List ℚ))
  cores : Nat

/-- Embedding of `main`'s pre-frame work (ascii.py lines 392-400): build
the character set, parse the monochrome color, build the atlas, and cap
the core count.  The source contains no validation of the background
value or of the character set, so no `ConfigError` is ever produced. -/
def main_prelude (args : MainArgs) (cpuCount : Nat) (rast : Rasterizer) :
    Except ConfigError PreludeState :=
  Except.ok
    { chars := mainChars args.chars,
      monochrome := args.m,
      font_maps := get_font_maps args.f args.b args.bg (mainChars args.chars) rast,
      cores := min args.cores cpuCount }

/-- A solid black 16 × 16 frame. -/
def blackFrame16 : Frame :=
  List.replicate 16 (List.replicate 16 ((0 : Nat), (0 : Nat), (0 : Nat)))

/-- A solid white 16 × 16 frame. -/
def whiteFrame16 : Frame :=
  List.replicate 16 (List.replicate 16 ((255 : Nat), (255 : Nat), (255 : Nat)))

/-- The two-glyph atlas of the spec's worked example: a maximally dense
8 × 8 glyph (for the hash character) first, a zero-density 8 × 8 glyph
(for the space) second. -/
def atlasTwoGlyph : List (List (List ℚ)) :=
  [List.replicate 8 (List.replicate 8 (1 : ℚ)),
   List.replicate 8 (List.replicate 8 (0 : ℚ))]

/-- A concrete possible behavior of the external rasterizer: the letter a
renders as a blank 1 × 1 bitmap, every other character as a fully inked
1 × 1 bitmap. -/
def rastFlat : Rasterizer :=
  fun _ _ c => if c = 'a' then ⟨1, 1, [[0]]⟩ else ⟨1, 1, [[255]]⟩

/-- A concrete rasterizer with characters of different sizes: the letter a
renders as a blank 3-row, 2-column bitmap, every other character as a
fully inked 1 × 1 bitmap. -/
def rastWide : Rasterizer :=
  fun _ _ c =>
    if c = 'a' then ⟨2, 3, [[0, 0], [0, 0], [0, 0]]⟩ else ⟨1, 1, [[255]]⟩

theorem foldl_min_le_init (l : List Nat) : ∀ a : Nat, l.foldl min a ≤ a := by
  induction l with
  | nil => intro a; simp
  | cons x t ih =>
    intro a
    exact le_trans (ih (min a x)) (min_le_left a x)

theorem foldl_min_le_mem (l : List Nat) :
    ∀ a b : Nat, b ∈ l → l.foldl min a ≤ b := by
  induction l with
  | nil => intro a b hb; cases hb
  | cons x t ih =>
    intro a b hb
    rcases List.mem_cons.mp hb with h | h
    · subst h
      exact le_trans (foldl_min_le_init t (min a b)) (min_le_right a b)
    · exact ih (min a x) b h

theorem listMin_le_of_mem {l : List Nat} {a : Nat} (h : a ∈ l) :
    listMin l ≤ a := by
  cases l with
  | nil => cases h
  | cons x t =>
    rcases List.mem_cons.mp h with h0 | h0
    · subst h0; exact foldl_min_le_init t a
    · exact foldl_min_le_mem t x a h0

theorem get_font_maps_eq_map (fontsize boldness background : Nat)
    (chars : List Char) (rast : Rasterizer) :
    get_font_maps fontsize boldness background chars rast =
      chars.map (fun c =>
        cropTo (glyphMinH fontsize boldness chars rast)
               (glyphMinW fontsize boldness chars rast)
               (renderGlyph fontsize boldness background rast c)) := by
  simp [get_font_maps, List.map_map]

theorem get_font_maps_length (fontsize boldness background : Nat)
    (chars : List Char) (rast : Rasterizer) :
    (get_font_maps fontsize boldness background chars rast).length =
      chars.length := by
  rw [get_font_maps_eq_map]
  exact List.length_map _ _

theorem map_concatAll (g : α → β) :
    ∀ L : List (List α), (concatAll L).map g = concatAll (L.map (fun l => l.map g)) := by
  intro L
  induction L with
  | nil => rfl
  | cons l ls ih => simp [concatAll, ih]

theorem parallelRunAux_eq_map (W : Nat) (f : α → β) (hW : 1 ≤ W) :
    ∀ fuel (xs : List α), xs.length ≤ fuel →
      parallelRunAux W f fuel xs = xs.map f := by
  intro fuel
  induction fuel with
  | zero =>
    intro xs hx
    cases xs with
    | nil => rfl
    | cons x t => simp at hx
  | succ n ih =>
    intro xs hx
    cases xs with
    | nil => rfl
    | cons x t =>
      have hdrop : (x :: t).drop W = t.drop (W - 1) := by
        have : W - 1 + 1 = W := Nat.succ_pred_eq_of_pos hW
        rw [← this]
        rfl
      have hlen : (t.drop (W - 1)).length ≤ n := by
        simp only [List.length_drop]
        simp only [List.length_cons] at hx
        omega
      calc parallelRunAux W f (n + 1) (x :: t)
          = ((x :: t).take W).map f ++ parallelRunAux W f n (t.drop (W - 1)) := rfl
        _ = ((x :: t).take W).map f ++ (t.drop (W - 1)).map f := by rw [ih _ hlen]
        _ = ((x :: t).take W).map f ++ ((x :: t).drop W).map f := by rw [hdrop]
        _ = ((x :: t).take W ++ (x :: t).drop W).map f := by rw [List.map_append]
        _ = (x :: t).map f := by rw [List.take_append_drop]

theorem poolSizesAux_nil (W fuel : Nat) :
    poolSizesAux W fuel ([] : List α) = [] := by
  cases fuel <;> rfl

theorem poolSizesAux_getLast (W : Nat) (hW : 1 ≤ W) :
    ∀ fuel (xs : List α), xs ≠ [] → xs.length ≤ fuel →
      (poolSizesAux W fuel xs).getLast? =
        some (if xs.length % W = 0 then W else xs.length % W) := by
  intro fuel
  induction fuel with
  | zero =>
    intro xs hne hx
    cases xs with
    | nil => exact absurd rfl hne
    | cons x t => simp at hx
  | succ n ih =>
    intro xs hne hx
    cases xs with
    | nil => exact absurd rfl hne
    | cons x t =>
      have htake : ((x :: t).take W).length = min W (t.length + 1) := by
        simp [List.length_take]
      by_cases hrest : t.drop (W - 1) = []
      · -- final batch: the whole remainder fits in one pool
        have hlen : t.length ≤ W - 1 := by
          have h2 : (t.drop (W - 1)).length = 0 := by rw [hrest]; rfl
          rw [List.length_drop] at h2
          omega
        have hle : t.length + 1 ≤ W := by omega
        have : poolSizesAux W (n + 1) (x :: t) =
            [((x :: t).take W).length] := by
          show ((x :: t).take W).length :: poolSizesAux W n (t.drop (W - 1)) = _
          rw [hrest, poolSizesAux_nil]
        rw [this, htake]
        rcases Nat.lt_or_ge (t.length + 1) W with hlt | hge
        · have hmod : (t.length + 1) % W = t.length + 1 := Nat.mod_eq_of_lt hlt
          have hmin : min W (t.length + 1) = t.length + 1 :=
            Nat.min_eq_right (le_of_lt hlt)
          simp [hmin, hmod]
        · have heq : t.length + 1 = W := le_antisymm hle hge
          simp [heq, Nat.mod_self]
      · -- more batches follow
        have hWle : W ≤ t.length := by
          by_contra hc
          have : t.length ≤ W - 1 := by omega
          have : t.drop (W - 1) = [] := by
            apply List.drop_eq_nil_of_le
            omega
          exact hrest this
        have hlen : (t.drop (W - 1)).length ≤ n := by
          simp only [List.length_drop]
          simp only [List.length_cons] at hx
          omega
        have hrec := ih (t.drop (W - 1)) hrest hlen
        have hdl : (t.drop (W - 1)).length = t.length + 1 - W := by
          simp only [List.length_drop]
          omega
        have hmod : (t.length + 1 - W) % W = (t.length + 1) % W := by
          have h3 : t.length + 1 - W + W = t.length + 1 := by omega
          calc (t.length + 1 - W) % W
              = (t.length + 1 - W + W) % W := (Nat.add_mod_right _ _).symm
            _ = (t.length + 1) % W := by rw [h3]
        have hstep : poolSizesAux W (n + 1) (x :: t) =
            ((x :: t).take W).length :: poolSizesAux W n (t.drop (W - 1)) := rfl
        rw [hstep]
        rcases hq : poolSizesAux W n (t.drop (W - 1)) with _ | ⟨y, ys⟩
        · rw [hq] at hrec
          simp at hrec
        · rw [hq] at hrec
          have hlast : (((x :: t).take W).length :: y :: ys).getLast? =
              (y :: ys).getLast? := rfl
          rw [hlast, hrec, hdl, hmod]
          simp only [List.length_cons]

theorem stridedAux_length_bound (s : Nat) (hs : 1 ≤ s) :
    ∀ fuel (xs : List α), xs.length ≤ fuel →
      xs.length ≤ (stridedAux s fuel xs).length * s := by
  intro fuel
  induction fuel with
  | zero =>
    intro xs hx
    cases xs with
    | nil => simp
    | cons x t => simp at hx
  | succ n ih =>
    intro xs hx
    cases xs with
    | nil => simp
    | cons x t =>
      have hlen : (t.drop (s - 1)).length ≤ n := by
        simp only [List.length_drop]
        simp only [List.length_cons] at hx
        omega
      have hrec := ih (t.drop (s - 1)) hlen
      have hstep : stridedAux s (n + 1) (x :: t) =
          x :: stridedAux s n (t.drop (s - 1)) := rfl
      rw [hstep]
      simp only [List.length_cons, List.length_drop] at hrec ⊢
      rw [Nat.succ_mul]
      omega

theorem strided_length_bound (s : Nat) (hs : 1 ≤ s) (xs : List α) :
    xs.length ≤ (strided s xs).length * s :=
  stridedAux_length_bound s hs xs.length xs le_rfl

theorem lumOf_le_254 (p : Pixel) (hr : p.1 ≤ 255) (hg : p.2.1 ≤ 255)
    (hb : p.2.2 ≤ 255) : lumOf p ≤ 254 := by
  unfold lumOf
  omega

theorem asciiIndex_lt (numChars lum : Nat) (hl : lum ≤ 254)
    (hn : 1 ≤ numChars) : asciiIndex numChars lum < numChars := by
  unfold asciiIndex
  have key : lum * numChars % 4294967296 < numChars * 256 := by
    rcases Nat.lt_or_ge numChars 16777217 with hsmall | hbig
    · have h1 : lum * numChars < 4294967296 := by
        calc lum * numChars ≤ 254 * numChars := Nat.mul_le_mul_right _ hl
          _ ≤ 254 * 16777216 := by omega
          _ < 4294967296 := by norm_num
      rw [Nat.mod_eq_of_lt h1]
      calc lum * numChars ≤ 254 * numChars := Nat.mul_le_mul_right _ hl
        _ < numChars * 256 := by omega
    · have h1 : lum * numChars % 4294967296 < 4294967296 :=
        Nat.mod_lt _ (by norm_num)
      calc lum * numChars % 4294967296 < 4294967296 := h1
        _ ≤ numChars * 256 := by omega
  exact (Nat.div_lt_iff_lt_mul (by norm_num : 0 < 256)).mpr key

theorem renderGlyph_length (fontsize boldness background : Nat)
    (rast : Rasterizer) (c : Char) :
    (renderGlyph fontsize boldness background rast c).length =
      (rast fontsize boldness c).bitmap.length := by
  unfold renderGlyph polarize
  split <;> simp

theorem renderGlyph_row_length (fontsize boldness background : Nat)
    (rast : Rasterizer) (c : Char) :
    ∀ row ∈ renderGlyph fontsize boldness background rast c,
      ∃ r0 ∈ (rast fontsize boldness c).bitmap, row.length = r0.length := by
  unfold renderGlyph polarize
  split
  · intro row hrow
    rcases List.mem_map.mp hrow with ⟨r1, h1, rfl⟩
    rcases List.mem_map.mp h1 with ⟨r0, h0, rfl⟩
    exact ⟨r0, h0, by simp only [List.length_map]⟩
  · intro row hrow
    rcases List.mem_map.mp hrow with ⟨r0, h0, rfl⟩
    exact ⟨r0, h0, by simp only [List.length_map]⟩

theorem getD_head_mem {l : List α} {d : α} (h : l ≠ []) :
    (l.get? 0).getD d ∈ l := by
  cases l with
  | nil => exact absurd rfl h
  | cons x t => simp

/-- C7: for every non-empty character set, every bitmap in the atlas
returned by `get_font_maps` has height equal to the minimum height and
width equal to the minimum width observed across all individually
rendered glyph bitmaps; in particular all bitmaps in one atlas share an
identical shape.  The rasterizer is assumed to produce bitmaps matching
its own reported metrics, as PIL does (`Image.new((w, h))` yields an
`h × w` array). -/
theorem atlas_bitmaps_uniform_shape (fontsize boldness background : Nat)
    (chars : List Char) (rast : Rasterizer)
    (hne : chars ≠ [])
    (hshape : ∀ fs bo c, (rast fs bo c).bitmap.length = (rast fs bo c).h ∧
      ∀ row ∈ (rast fs bo c).bitmap, row.length = (rast fs bo c).w) :
    ∀ bm ∈ get_font_maps fontsize boldness background chars rast,
      bm.length = glyphMinH fontsize boldness chars rast ∧
      ∀ row ∈ bm, row.length = glyphMinW fontsize boldness chars rast := by
  intro bm hbm
  rw [get_font_maps_eq_map] at hbm
  rcases List.mem_map.mp hbm with ⟨c, hc, rfl⟩
  have hlenR : (renderGlyph fontsize boldness background rast c).length =
      (rast fontsize boldness c).h := by
    rw [renderGlyph_length]
    exact (hshape fontsize boldness c).1
  have hminH : glyphMinH fontsize boldness chars rast ≤ (rast fontsize boldness c).h :=
    listMin_le_of_mem (List.mem_map_of_mem _ hc)
  constructor
  · simp only [cropTo, List.length_map, List.length_take, hlenR]
    omega
  · intro row hrow
    simp only [cropTo] at hrow
    rcases List.mem_map.mp hrow with ⟨r1, h1, rfl⟩
    have h1m : r1 ∈ renderGlyph fontsize boldness background rast c :=
      List.mem_of_mem_take h1
    rcases renderGlyph_row_length fontsize boldness background rast c r1 h1m with
      ⟨r0, h0, hlen1⟩
    have hw : r0.length = (rast fontsize boldness c).w :=
      (hshape fontsize boldness c).2 r0 h0
    have hminW : glyphMinW fontsize boldness chars rast ≤ (rast fontsize boldness c).w :=
      listMin_le_of_mem (List.mem_map_of_mem _ hc)
    simp only [List.length_take, hlen1, hw]
    omega

/-- Witness for `atlas_bitmaps_uniform_shape` at a concrete character set
and rasterizer. -/
theorem atlas_bitmaps_uniform_shape_witness :
    (((get_font_maps 10 1 0 ['a', 'b'] rastWide).get? 0).getD []).length =
      glyphMinH 10 1 ['a', 'b'] rastWide := by
  have hne : get_font_maps 10 1 0 ['a', 'b'] rastWide ≠ [] := by
    intro hcon
    have hl := congrArg List.length hcon
    rw [get_font_maps_length] at hl
    simp at hl
  exact (atlas_bitmaps_uniform_shape 10 1 0 ['a', 'b'] rastWide (by decide)
    (by
      intro fs bo c
      unfold rastWide
      by_cases h : c = 'a' <;> simp [h])
    _ (getD_head_mem hne)).1

/-- C10: `get_font_maps` returns exactly one bitmap per character, at the
same index as that character in the input string: the i-th bitmap is the
cropped, normalized, polarity-corrected render of the i-th character, and
the builder performs no reordering; the atlas order is supplied entirely
by the character string, which `main` builds by reversing the master
ordering string. -/
theorem get_font_maps_order_preserving (fontsize boldness background : Nat)
    (chars : List Char) (rast : Rasterizer) :
    (get_font_maps fontsize boldness background chars rast).length = chars.length ∧
    (∀ i (h : i < chars.length),
      (get_font_maps fontsize boldness background chars rast).get? i =
        some (cropTo (glyphMinH fontsize boldness chars rast)
                     (glyphMinW fontsize boldness chars rast)
                     (renderGlyph fontsize boldness background rast
                       (chars.get ⟨i, h⟩)))) ∧
    mainChars none = masterChars.reverse := by
  refine ⟨get_font_maps_length _ _ _ _ _, ?_, rfl⟩
  intro i h
  rw [get_font_maps_eq_map, List.get?_map, List.get?_eq_get h]
  rfl

/-- Witness for `get_font_maps_order_preserving` at index 1 of a
two-character set. -/
theorem get_font_maps_order_preserving_witness :
    (get_font_maps 10 1 0 ['a', 'b'] rastFlat).get? 1 =
      some (cropTo (glyphMinH 10 1 ['a', 'b'] rastFlat)
                   (glyphMinW 10 1 ['a', 'b'] rastFlat)
                   (renderGlyph 10 1 0 rastFlat (['a', 'b'].get ⟨1, by decide⟩))) :=
  (get_font_maps_order_preserving 10 1 0 ['a', 'b'] rastFlat).2.1 1 (by decide)

/-- C3: for 8-bit pixels and a non-empty character set of size N, the
luminance index (perceptual-weighted sum accumulated as uint32, times N,
shifted right by 8) always lies in `[0, N-1]`, so the lookups
`chars[index]` and `font_maps[index]` are in bounds. -/
theorem luminance_index_within_atlas (r g b fontsize boldness background : Nat)
    (chars : List Char) (rast : Rasterizer)
    (hr : r ≤ 255) (hg : g ≤ 255) (hb : b ≤ 255) (hne : chars ≠ []) :
    asciiIndex chars.length (lumOf (r, g, b)) < chars.length ∧
    asciiIndex chars.length (lumOf (r, g, b)) <
      (get_font_maps fontsize boldness background chars rast).length := by
  have h1 : 1 ≤ chars.length := List.length_pos.mpr hne
  have h2 := asciiIndex_lt chars.length (lumOf (r, g, b))
    (lumOf_le_254 (r, g, b) hr hg hb) h1
  exact ⟨h2, by rw [get_font_maps_length]; exact h2⟩

/-- Witness for `luminance_index_within_atlas` at a pure-white pixel and a
two-character set. -/
theorem luminance_index_within_atlas_witness :
    asciiIndex 2 (lumOf (255, 255, 255)) < 2 ∧
    asciiIndex 2 (lumOf (255, 255, 255)) <
      (get_font_maps 10 1 0 ['#', ' '] rastFlat).length :=
  luminance_index_within_atlas 255 255 255 10 1 0 ['#', ' '] rastFlat
    (by decide) (by decide) (by decide) (by decide)

/-- C4: with clipping enabled, the exact policy's canvas height and width
each equal `(inputDim // cellDim) * cellDim - cellDim` — an exact multiple
of the cell dimension, strictly smaller than
`(inputDim // cellDim) * cellDim` — while the vectorized policy's clipped
output exactly equals the original frame's height and width. -/
theorem clipping_dimension_laws (frame : Frame) (fh fw : Nat)
    (hoh : 1 ≤ frame.length) (how : 1 ≤ frameWidth frame)
    (hfh : 1 ≤ fh) (hfw : 1 ≤ fw) :
    (draw_clip_dim frame.length fh = (frame.length : Int) / fh * fh - fh ∧
     (fh : Int) ∣ draw_clip_dim frame.length fh ∧
     draw_clip_dim frame.length fh < (frame.length : Int) / fh * fh) ∧
    (draw_clip_dim (frameWidth frame) fw = (frameWidth frame : Int) / fw * fw - fw ∧
     (fw : Int) ∣ draw_clip_dim (frameWidth frame) fw ∧
     draw_clip_dim (frameWidth frame) fw < (frameWidth frame : Int) / fw * fw) ∧
    draw_efficient_dims true frame fh fw = (frame.length, frameWidth frame) := by
  have hfh' : (0 : Int) < fh := by exact_mod_cast hfh
  have hfw' : (0 : Int) < fw := by exact_mod_cast hfw
  refine ⟨⟨rfl, ?_, ?_⟩, ⟨rfl, ?_, ?_⟩, ?_⟩
  · exact dvd_sub (dvd_mul_left (fh : Int) _) dvd_rfl
  · exact sub_lt_self _ hfh'
  · exact dvd_sub (dvd_mul_left (fw : Int) _) dvd_rfl
  · exact sub_lt_self _ hfw'
  · have h1 : frame.length ≤ (strided fh frame).length * fh :=
      strided_length_bound fh hfh frame
    have h2 : frameWidth frame ≤ (strided fw ((frame.get? 0).getD [])).length * fw :=
      strided_length_bound fw hfw ((frame.get? 0).getD [])
    simp only [draw_efficient_dims, if_true]
    rw [Nat.min_eq_left h1, Nat.min_eq_left h2]

/-- Witness for `clipping_dimension_laws` on a 16 × 16 frame with 8 × 8
cells. -/
theorem clipping_dimension_laws_witness :
    draw_clip_dim blackFrame16.length 8 < (blackFrame16.length : Int) / 8 * 8 ∧
    draw_efficient_dims true blackFrame16 8 8 =
      (blackFrame16.length, frameWidth blackFrame16) := by
  have h := clipping_dimension_laws blackFrame16 8 8 (by decide) (by decide)
    (by decide) (by decide)
  exact ⟨h.1.2.2, h.2.2⟩

/-- C5: for worker count `1 < W < N`, the parallel pipeline emits exactly
the in-order map of the configured drawing function over the input frames
(its batch tuples carrying `font_maps = None`), and when `N mod W ≠ 0`
the final partial batch is processed by a pool sized to that batch's
length `N mod W`. -/
theorem parallel_pipeline_preserves_order (draw_func : DrawPolicy)
    (kSize : Nat × Nat) (W : Nat) (chars : List Char)
    (fontsize boldness background : Nat) (clip : Bool)
    (monochrome : Option Pixel) (frames : List Frame)
    (hW : 1 < W) (hN : W < frames.length) :
    ascii_video_parallel draw_func kSize W chars fontsize boldness background
        clip monochrome frames =
      frames.map (fun frame => runPolicy draw_func kSize
        { frame := frame, chars := chars, fontsize := fontsize,
          boldness := boldness, background := background, clip := clip,
          monochrome := monochrome, font_maps := none }) ∧
    (frames.length % W ≠ 0 →
      (poolSizes W frames).getLast? = some (frames.length % W)) := by
  constructor
  · exact parallelRunAux_eq_map W _ (le_of_lt hW) frames.length frames le_rfl
  · intro hmod
    have hne : frames ≠ [] := by
      intro hcon
      rw [hcon] at hN
      simp at hN
    have h := poolSizesAux_getLast W (le_of_lt hW) frames.length frames hne le_rfl
    unfold poolSizes
    rw [h, if_neg hmod]

/-- Witness for `parallel_pipeline_preserves_order`: three frames, two
workers, final partial batch of size one. -/
theorem parallel_pipeline_preserves_order_witness :
    ascii_video_parallel DrawPolicy.exact (8, 8) 2 ['#', ' '] 20 2 255 true
        none [blackFrame16, whiteFrame16, blackFrame16] =
      [Except.ok [0], Except.ok [1], Except.ok [0]] ∧
    (poolSizes 2 [blackFrame16, whiteFrame16, blackFrame16]).getLast? = some 1 := by
  have h := parallel_pipeline_preserves_order DrawPolicy.exact (8, 8) 2 ['#', ' ']
    20 2 255 true none [blackFrame16, whiteFrame16, blackFrame16]
    (by decide) (by decide)
  exact ⟨h.1.trans rfl, h.2 (by decide)⟩

/-- C8: the per-cell glyph index map of both policies is a function of the
frame and the atlas size only — compositing with a fixed monochrome color
and with monochrome disabled select identical glyph indices everywhere;
the two runs differ only in the color layer. -/
theorem index_map_independent_of_monochrome (frame : Frame) (chars : List Char)
    (background : Nat) (font_maps : List (List (List ℚ))) (m : Pixel)
    (numChars fh fw : Nat) (clip : Bool) :
    (draw_efficient_model frame chars background (some m) font_maps).1 =
      (draw_efficient_model frame chars background none font_maps).1 ∧
    (draw_calls frame numChars fh fw clip (some m)).map
        (fun t => (t.row, t.col, t.charIdx)) =
      (draw_calls frame numChars fh fw clip none).map
        (fun t => (t.row, t.col, t.charIdx)) := by
  constructor
  · rfl
  · unfold draw_calls
    rw [map_concatAll, map_concatAll]
    simp [List.map_map, Function.comp_def]

/-- C9: with the two-glyph atlas (dense hash glyph at index 0, blank space
glyph at index 1, 8 × 8 cells) and background 255, a solid black 16 × 16
frame selects atlas index 0 in all four cells and a solid white 16 × 16
frame selects atlas index 1 in all four cells, under both policies. -/
theorem two_glyph_atlas_example :
    ((draw_efficient_model blackFrame16 ['#', ' '] 255 none atlasTwoGlyph).1 =
        [0, 0, 0, 0] ∧
     (draw_efficient_model whiteFrame16 ['#', ' '] 255 none atlasTwoGlyph).1 =
        [1, 1, 1, 1]) ∧
    ((draw_calls blackFrame16 2 8 8 false none).map (fun t => t.charIdx) =
        [0, 0, 0, 0] ∧
     (draw_calls whiteFrame16 2 8 8 false none).map (fun t => t.charIdx) =
        [1, 1, 1, 1]) :=
  ⟨⟨rfl, rfl⟩, ⟨rfl, rfl⟩⟩

/-- C2 (failing input): in the parallel path the configured drawing
function is dispatched over batch tuples whose `font_maps` slot is `None`,
so with the default vectorized policy configured and `cores = 2` the pool
invokes `draw_efficient`, which fails at `font_maps[0]` — the exact policy
is not substituted.  The same parameter tuple runs fine under the exact
policy, which is what the batch tuples were built for. -/
theorem parallel_path_invokes_configured_policy :
    ascii_video_parallel DrawPolicy.efficient (8, 8) 2 ['#', ' '] 20 2 255 true
        none [blackFrame16] =
      [Except.error "TypeError: NoneType object is not subscriptable"] ∧
    runPolicy DrawPolicy.exact (8, 8)
        { frame := blackFrame16, chars := ['#', ' '], fontsize := 20,
          boldness := 2, background := 255, clip := true, monochrome := none,
          font_maps := none } =
      Except.ok [0] :=
  ⟨rfl, rfl⟩

/-- C1 (counterexample): `get_font_maps` performs no sorting, so a
character set whose first character renders less densely than its second
yields an atlas that is not in descending order of summed intensity. -/
theorem get_font_maps_not_sorted_by_intensity :
    ¬ sortedDescByIntensity (get_font_maps 12 1 0 ['a', 'b'] rastFlat) := by
  intro hsorted
  have hval : get_font_maps 12 1 0 ['a', 'b'] rastFlat =
      [[[normPx 0]], [[normPx 255]]] := rfl
  rw [hval] at hsorted
  have h2 := (List.pairwise_cons.mp hsorted).1 [[normPx 255]] (by simp)
  simp only [sumIntensity, normPx, List.map_cons, List.map_nil, List.sum_cons,
    List.sum_nil] at h2
  norm_num at h2

/-- C1 (amended): the atlas order is exactly the input character order, so
the atlas is sorted in descending summed intensity whenever the caller
passes characters in descending order of processed (cropped, normalized,
polarity-corrected) density — as `main`'s reversed master string is
arranged to do; the result is deterministic for a fixed character set and
rasterizer. -/
theorem get_font_maps_sorted_of_input_sorted (fontsize boldness background : Nat)
    (chars : List Char) (rast : Rasterizer)
    (hsorted : chars.Pairwise (fun c d =>
      sumIntensity (cropTo (glyphMinH fontsize boldness chars rast)
                           (glyphMinW fontsize boldness chars rast)
                           (renderGlyph fontsize boldness background rast d)) ≤
      sumIntensity (cropTo (glyphMinH fontsize boldness chars rast)
                           (glyphMinW fontsize boldness chars rast)
                           (renderGlyph fontsize boldness background rast c)))) :
    sortedDescByIntensity (get_font_maps fontsize boldness background chars rast) := by
  rw [get_font_maps_eq_map]
  unfold sortedDescByIntensity
  exact List.Pairwise.map _ (fun _ _ hcd => hcd) hsorted

/-- Witness for `get_font_maps_sorted_of_input_sorted`: the dense
character first. -/
theorem get_font_maps_sorted_of_input_sorted_witness :
    sortedDescByIntensity (get_font_maps 12 1 0 ['b', 'a'] rastFlat) := by
  apply get_font_maps_sorted_of_input_sorted
  refine List.Pairwise.cons ?_ (List.Pairwise.cons (by intro y hy; cases hy)
    List.Pairwise.nil)
  intro d hd
  have hd' : d = 'a' := by
    rcases List.mem_cons.mp hd with h | h
    · exact h
    · cases h
  subst hd'
  have ha : cropTo (glyphMinH 12 1 ['b', 'a'] rastFlat)
      (glyphMinW 12 1 ['b', 'a'] rastFlat) (renderGlyph 12 1 0 rastFlat 'a') =
      [[normPx 0]] := rfl
  have hb : cropTo (glyphMinH 12 1 ['b', 'a'] rastFlat)
      (glyphMinW 12 1 ['b', 'a'] rastFlat) (renderGlyph 12 1 0 rastFlat 'b') =
      [[normPx 255]] := rfl
  rw [ha, hb]
  simp only [sumIntensity, normPx, List.map_cons, List.map_nil, List.sum_cons,
    List.sum_nil]
  norm_num

/-- C6 (counterexample): a configuration with background 100 (neither 0
nor 255) passes `main`'s prelude without any error, and a `-chars` filter
disjoint from the master string yields an empty character set that also
passes the prelude (building an empty atlas) — neither is rejected before
frame processing. -/
theorem invalid_config_not_rejected :
    (main_prelude { chars := none, f := 20, b := 2, bg := 100,
                    m := none, c := true, cores := 0 } 4 rastFlat).isOk = true ∧
    (main_prelude { chars := some ['€'], f := 20, b := 2, bg := 255,
                    m := none, c := true, cores := 0 } 4 rastFlat).isOk = true ∧
    mainChars (some ['€']) = [] := by
  refine ⟨rfl, rfl, ?_⟩
  decide

/-- C6 (amended): `main` performs no eager configuration validation at
all — for every argument combination the prelude (character-set build,
monochrome parse, atlas build, core cap) succeeds; failures from an
invalid background or an empty character set can only surface later,
during frame drawing. -/
theorem main_prelude_never_rejects (args : MainArgs) (cpuCount : Nat)
    (rast : Rasterizer) : (main_prelude args cpuCount rast).isOk = true :=
  rfl
